import Mathlib

/-!
Shallow embedding of the IRC protocol front-end (irc/commands.go) and the
claims about it.  Go strings are modelled as lists of characters (rune
sequences); Go errors and runtime panics are modelled by an explicit result
type.  Unicode normalization (an external library) and channel-name
recognition (defined outside the sources at hand) are taken as abstract
function parameters.
-/

/-- Go strings, viewed as rune sequences. -/
abbrev Str := List Char

/-- The two error values of commands.go: `NotEnoughArgsError` and
`ErrParseCommand`. -/
inductive GoError where
  | notEnoughArgsError : GoError
  | errParseCommand : GoError
deriving DecidableEq

/-- Result of a Go constructor call: a value, a returned error, or a runtime
panic (index out of range). -/
inductive GoResult (α : Type) where
  | ok : α → GoResult α
  | err : GoError → GoResult α
  | crash : GoResult α
deriving DecidableEq

/-- `splitArg`: `spacesExpr.Split(line, 2)` with `spacesExpr = ` one or more
spaces — split the line at its first run of spaces; the first piece is
everything before that run, the second everything after it. -/
def splitArg (line : Str) : Str × Str :=
  (line.takeWhile (fun c => c != ' '),
   (line.dropWhile (fun c => c != ' ')).dropWhile (fun c => c == ' '))

/-- `strings.ToUpper` (the command codes of interest are ASCII). -/
def goToUpper (s : Str) : Str := s.map Char.toUpper

/-- The parameter loop of `ParseLine`, with explicit fuel.  Each iteration
strictly shortens the line, so fuel `line.length` is always sufficient
(`parseParamsF_fuel`). -/
def parseParamsF (nfkc nfc : Str → Str) : Nat → Str → List Str
  | _, [] => []
  | 0, _ :: _ => []
  | fuel + 1, c :: rest =>
    if c = ':' then [nfc rest]
    else
      let p := splitArg (c :: rest)
      nfkc p.1 :: parseParamsF nfkc nfc fuel p.2

/-- The parameter loop of `ParseLine` at its sufficient fuel. -/
def parseParams (nfkc nfc : Str → Str) (line : Str) : List Str :=
  parseParamsF nfkc nfc line.length line

/-- `ParseLine`: drop a leading `:`-prefix token, take the next token
(upper-cased) as the command code, then collect parameters; a parameter
starting with `:` is the trailing parameter (colon removed, NFC-normalized
only), every other parameter is NFKC-normalized.  `nfkc` and `nfc` are the
two normalization transforms, abstract here. -/
def ParseLine (nfkc nfc : Str → Str) (line : Str) : Str × List Str :=
  let line1 := match line with
    | ':' :: _ => (splitArg line).2
    | _ => line
  let p := splitArg line1
  (goToUpper p.1, parseParams nfkc nfc p.2)

/-- Mode operation, a rune (`ModeOp` in the source).  `AddOp` and `RemoveOp`
(named `Add` and `Remove` in the source, renamed here to avoid clashing with
library names) are the wire characters; `ListMode` (called `List` in the
source) is the query operation. -/
abbrev ModeOp := Char

def AddOp : ModeOp := '+'

def RemoveOp : ModeOp := '-'

/-- Modelled from the spec: the rune value of the `List` (query) operation is
defined in a file not among the given sources; the spec only requires an
operation distinct from add and remove, never compared against input. -/
def ListMode : ModeOp := '='

/-- User-mode letter, a rune. -/
abbrev UserMode := Char

/-- Channel-mode letter, a rune. -/
abbrev ChannelMode := Char

/-- Modelled from the spec: the wallops user-mode flag; the constants file is
not among the given sources, the spec pairs the flag with USER mode bit 2
and the standard letter is `w`. -/
def WallOps : UserMode := 'w'

/-- Modelled from the spec: the invisible user-mode flag (USER mode bit 3,
standard letter `i`). -/
def Invisible : UserMode := 'i'

/-- Modelled from the spec: the argument-consuming channel-mode letters
(key, ban-mask, except-mask, invite-mask, user-limit, operator, creator,
voice); the constants file is not among the given sources, the letters are
the standard IRC ones, `o` (operator) and `v` (voice) being fixed by the
spec's own examples. -/
def Key : ChannelMode := 'k'

def BanMask : ChannelMode := 'b'

def ExceptMask : ChannelMode := 'e'

def InviteMask : ChannelMode := 'I'

def UserLimit : ChannelMode := 'l'

def ChannelOperator : ChannelMode := 'o'

def ChannelCreator : ChannelMode := 'O'

def Voice : ChannelMode := 'v'

/-- A user-mode change `(mode letter, operation)`. -/
structure ModeChange where
  mode : UserMode
  op : ModeOp
deriving DecidableEq

/-- A channel-mode change `(mode letter, operation, optional argument)`. -/
structure ChannelModeChange where
  mode : ChannelMode
  op : ModeOp
  arg : Str
deriving DecidableEq

/-- `ModeChanges.String`: start with the first change's operation symbol;
for every change (the first included), append its mode letter when its
operation equals the current one, otherwise switch the current operation and
append a space and the new operation symbol. -/
def ModeChangesString (changes : List ModeChange) : Str :=
  match changes with
  | [] => []
  | c0 :: _ =>
    (changes.foldl
      (fun acc change =>
        if change.op = acc.2 then (acc.1 ++ [change.mode], acc.2)
        else (acc.1 ++ [' ', change.op], change.op))
      ([c0.op], c0.op)).1

/-- The command value: one variant per command struct of commands.go, each
carrying exactly its validated fields. -/
inductive IrcCommand where
  | unknown (args : List Str)
  | ping (server server2 : Str)
  | pong (server1 server2 : Str)
  | pass (password : Str)
  | nick (nickname : Str)
  | userRFC1459 (username hostname servername realname : Str)
  | userRFC2812 (username : Str) (mode : Nat) (unused realname : Str)
  | quit (message : Str)
  | join (channels : List (Str × Str)) (zero : Bool)
  | part (channels : List Str) (message : Str)
  | privMsg (target message : Str)
  | topic (channel : Str) (setTopic : Bool) (topic : Str)
  | userMode (nickname : Str) (changes : List ModeChange)
  | channelMode (channel : Str) (changes : List ChannelModeChange)
  | whois (target : Str) (masks : List Str)
  | who (mask : Str) (operatorOnly : Bool)
  | oper (name : Str) (password : Str)
  | cap (subCommand : Str) (capabilities : List Str)
  | proxy (net sourceIP destIP sourcePort destPort hostname : Str)
  | away (text : Str) (isAway : Bool)
  | ison (nicks : List Str)
  | motd (target : Str)
  | notice (target message : Str)
  | kick (kicks : List (Str × Str)) (comment : Str)
  | listChannels (channels : List Str) (target : Str)
  | names (channels : List Str) (target : Str)
  | debug (subCommand : Str)
  | version (target : Str)
  | invite (nickname channel : Str)
  | time (target : Str)
  | kill (nickname comment : Str)
deriving DecidableEq

/-- Go map assignment `m[k] = v` on an insertion-ordered association list:
replace the value when the key is present, otherwise append the pair. -/
def goMapInsert : List (Str × Str) → Str → Str → List (Str × Str)
  | [], k, v => [(k, v)]
  | (k', v') :: t, k, v =>
    if k' = k then (k, v) :: t else (k', v') :: goMapInsert t k v

/-- Sequence of Go map assignments, first pair first. -/
def goMapInsertAll : List (Str × Str) → List (Str × Str) → List (Str × Str)
  | m, [] => m
  | m, (k, v) :: t => goMapInsertAll (goMapInsert m k v) t

/-- `strconv.ParseUint(s, 10, 8)`: decimal digits only, value at most 255;
`none` models a non-nil error. -/
def parseUint8 (s : Str) : Option Nat :=
  if s ≠ [] ∧ s.all (fun c => c.isDigit) then
    let n := s.foldl (fun acc c => acc * 10 + (c.toNat - (48 : Nat))) 0
    if n ≤ 255 then some n else none
  else none

/-- `spacesExpr.Split(s, -1)`: split at every run of spaces, keeping empty
pieces at the ends.  Fuel `s.length` bounds the iterations (each step drops
at least one space). -/
def splitSpacesF : Nat → Str → List Str
  | 0, l => [l.takeWhile (fun c => c != ' ')]
  | fuel + 1, l =>
    let first := l.takeWhile (fun c => c != ' ')
    let rest0 := l.dropWhile (fun c => c != ' ')
    match rest0 with
    | [] => [first]
    | _ :: _ => first :: splitSpacesF fuel (rest0.dropWhile (fun c => c == ' '))

def splitSpaces (s : Str) : List Str := splitSpacesF s.length s

def NewUnknownCommand (args : List Str) : IrcCommand := .unknown args

def NewPingCommand (args : List Str) : GoResult IrcCommand :=
  match args with
  | [] => .err .notEnoughArgsError
  | a0 :: rest => .ok (.ping a0 (rest.headD []))

def NewPongCommand (args : List Str) : GoResult IrcCommand :=
  match args with
  | [] => .err .notEnoughArgsError
  | a0 :: rest => .ok (.pong a0 (rest.headD []))

def NewPassCommand (args : List Str) : GoResult IrcCommand :=
  match args with
  | [] => .err .notEnoughArgsError
  | a0 :: _ => .ok (.pass a0)

def NewNickCommand (args : List Str) : GoResult IrcCommand :=
  match args with
  | [a0] => .ok (.nick a0)
  | _ => .err .notEnoughArgsError

/-- `RFC2812UserCommand.Flags`: wallops from bit 2, invisible from bit 3 of
the numeric mode. -/
def RFC2812UserCommandFlags (mode : Nat) : List UserMode :=
  (if mode &&& 4 = 4 then [WallOps] else []) ++
  (if mode &&& 8 = 8 then [Invisible] else [])

def NewUserCommand (args : List Str) : GoResult IrcCommand :=
  match args with
  | [a0, a1, a2, a3] =>
    match parseUint8 a1 with
    | some mode => .ok (.userRFC2812 a0 mode a2 a3)
    | none => .ok (.userRFC1459 a0 a1 a2 a3)
  | _ => .err .notEnoughArgsError

def NewQuitCommand (args : List Str) : GoResult IrcCommand :=
  .ok (.quit (args.headD []))

/-- The key-writing loop of NewJoinCommand: `keys[i] = key` for each supplied
key in order; writing past the end of the slice is a runtime panic. -/
def writeKeys : List Str → List Str → Nat → GoResult (List Str)
  | keys, [], _ => .ok keys
  | keys, k :: t, i =>
    if i < keys.length then writeKeys (keys.set i k) t (i + 1) else .crash

def NewJoinCommand (args : List Str) : GoResult IrcCommand :=
  match args with
  | [] => .err .notEnoughArgsError
  | a0 :: rest =>
    if a0 = ['0'] then .ok (.join [] true)
    else
      let channels := a0.splitOn ','
      let keys0 : List Str := List.replicate channels.length []
      let keysR : GoResult (List Str) :=
        match rest with
        | [] => .ok keys0
        | a1 :: _ => writeKeys keys0 (a1.splitOn ',') 0
      match keysR with
      | .ok keys =>
        -- keys always has exactly channels.length entries, so the zip holds
        -- the same (channels[i], keys[i]) pairs as the indexed range loop.
        .ok (.join (goMapInsertAll [] (channels.zip keys)) false)
      | .err e => .err e
      | .crash => .crash

def NewPartCommand (args : List Str) : GoResult IrcCommand :=
  match args with
  | [] => .err .notEnoughArgsError
  | a0 :: rest => .ok (.part (a0.splitOn ',') (rest.headD []))

def NewPrivMsgCommand (args : List Str) : GoResult IrcCommand :=
  match args with
  | a0 :: a1 :: _ => .ok (.privMsg a0 a1)
  | _ => .err .notEnoughArgsError

def NewTopicCommand (args : List Str) : GoResult IrcCommand :=
  match args with
  | [] => .err .notEnoughArgsError
  | [a0] => .ok (.topic a0 false [])
  | a0 :: a1 :: _ => .ok (.topic a0 true a1)

/-- The body of NewUserModeCommand's loop over `args[1:]`: an empty argument
is skipped; otherwise its first character must be `+` or `-` (else the parse
error aborts the whole command) and every following character of the same
argument becomes one change under that operation. -/
def userModeChanges : List Str → GoResult (List ModeChange)
  | [] => .ok []
  | mc :: rest =>
    match mc with
    | [] => userModeChanges rest
    | c :: ms =>
      if c = AddOp ∨ c = RemoveOp then
        match userModeChanges rest with
        | .ok tl => .ok (ms.map (fun m => ⟨m, c⟩) ++ tl)
        | e => e
      else .err .errParseCommand

def NewUserModeCommand (args : List Str) : GoResult IrcCommand :=
  match args with
  | [] => .crash
  | nickname :: rest =>
    match userModeChanges rest with
    | .ok changes => .ok (.userMode nickname changes)
    | .err e => .err e
    | .crash => .crash

def isConsumingChannelMode (m : ChannelMode) : Bool :=
  m == Key || m == BanMask || m == ExceptMask || m == InviteMask ||
  m == UserLimit || m == ChannelOperator || m == ChannelCreator || m == Voice

/-- One `+xyz` token of the channel-mode grammar: every character is a mode
letter under the token's operation; an argument-consuming letter claims the
next unclaimed argument (the head of `queue`) when one remains.  Returns the
changes and the still-unclaimed arguments. -/
def channelModeToken (op : ModeOp) : Str → List Str → List ChannelModeChange × List Str
  | [], queue => ([], queue)
  | m :: ms, queue =>
    let consumed : Str × List Str :=
      if isConsumingChannelMode m then
        match queue with
        | [] => ([], [])
        | q :: qt => (q, qt)
      else ([], queue)
    let r := channelModeToken op ms consumed.2
    (⟨m, op, consumed.1⟩ :: r.1, r.2)

/-- The argument cursor loop of NewChannelModeCommand, with explicit fuel:
an empty argument is skipped; otherwise a leading `+`/`-` selects the
operation and is stripped (anything else means the `List` query operation,
nothing stripped), the rest of the token is mode letters, and the cursor
advances past the token and the arguments it claimed.  Each iteration
removes at least the head argument, so fuel `args.length` is sufficient
(`channelModeLoopF_fuel`). -/
def channelModeLoopF : Nat → List Str → List ChannelModeChange
  | _, [] => []
  | 0, _ :: _ => []
  | fuel + 1, a :: rest =>
    match a with
    | [] => channelModeLoopF fuel rest
    | c :: cs =>
      let opModes : ModeOp × Str :=
        if c = AddOp ∨ c = RemoveOp then (c, cs) else (ListMode, c :: cs)
      let r := channelModeToken opModes.1 opModes.2 rest
      r.1 ++ channelModeLoopF fuel r.2

def NewChannelModeCommand (args : List Str) : GoResult IrcCommand :=
  match args with
  | [] => .crash
  | channel :: rest => .ok (.channelMode channel (channelModeLoopF rest.length rest))

/-- `NewModeCommand`: dispatch on whether the subject is a channel name;
`IsChannel` is defined outside the given sources and is abstract here. -/
def NewModeCommand (isChannel : Str → Bool) (args : List Str) : GoResult IrcCommand :=
  match args with
  | [] => .err .notEnoughArgsError
  | a0 :: rest =>
    if isChannel a0 then NewChannelModeCommand (a0 :: rest)
    else NewUserModeCommand (a0 :: rest)

def NewWhoisCommand (args : List Str) : GoResult IrcCommand :=
  match args with
  | [] => .err .notEnoughArgsError
  | [a0] => .ok (.whois [] (a0.splitOn ','))
  | a0 :: a1 :: _ => .ok (.whois a0 (a1.splitOn ','))

def NewWhoCommand (args : List Str) : GoResult IrcCommand :=
  match args with
  | [] => .ok (.who [] false)
  | [a0] => .ok (.who a0 false)
  | a0 :: a1 :: _ => .ok (.who a0 (a1 == ['o']))

def NewOperCommand (args : List Str) : GoResult IrcCommand :=
  match args with
  | a0 :: a1 :: _ => .ok (.oper a0 a1)
  | _ => .err .notEnoughArgsError

def NewCapCommand (args : List Str) : GoResult IrcCommand :=
  match args with
  | [] => .err .notEnoughArgsError
  | [a0] => .ok (.cap (goToUpper a0) [])
  | a0 :: a1 :: _ => .ok (.cap (goToUpper a0) (splitSpaces a1))

/-- `NewProxyCommand`; the reverse hostname lookup is an external collaborator
taken as an abstract function. -/
def NewProxyCommand (lookupHostname : Str → Str) (args : List Str) : GoResult IrcCommand :=
  match args with
  | a0 :: a1 :: a2 :: a3 :: a4 :: _ => .ok (.proxy a0 a1 a2 a3 a4 (lookupHostname a1))
  | _ => .err .notEnoughArgsError

def NewAwayCommand (args : List Str) : GoResult IrcCommand :=
  match args with
  | [] => .ok (.away [] false)
  | a0 :: _ => .ok (.away a0 true)

def NewIsOnCommand (args : List Str) : GoResult IrcCommand :=
  match args with
  | [] => .err .notEnoughArgsError
  | a0 :: rest => .ok (.ison (a0 :: rest))

def NewMOTDCommand (args : List Str) : GoResult IrcCommand :=
  .ok (.motd (args.headD []))

def NewNoticeCommand (args : List Str) : GoResult IrcCommand :=
  match args with
  | a0 :: a1 :: _ => .ok (.notice a0 a1)
  | _ => .err .notEnoughArgsError

def NewKickCommand (args : List Str) : GoResult IrcCommand :=
  match args with
  | a0 :: a1 :: rest =>
    let channels := a0.splitOn ','
    let users := a1.splitOn ','
    if channels.length ≠ users.length ∧ users.length ≠ 1 then .err .notEnoughArgsError
    else
      -- With one user every channel is paired with it; otherwise the guard
      -- gives users.length = channels.length and the zip holds the same
      -- (channels[index], users[index]) pairs as the indexed range loop.
      let usersEff :=
        if users.length = 1 then List.replicate channels.length (users.headD [])
        else users
      .ok (.kick (goMapInsertAll [] (channels.zip usersEff)) (rest.headD []))
  | _ => .err .notEnoughArgsError

def NewListCommand (args : List Str) : GoResult IrcCommand :=
  match args with
  | [] => .ok (.listChannels [] [])
  | [a0] => .ok (.listChannels (a0.splitOn ',') [])
  | a0 :: a1 :: _ => .ok (.listChannels (a0.splitOn ',') a1)

def NewNamesCommand (args : List Str) : GoResult IrcCommand :=
  match args with
  | [] => .ok (.names [] [])
  | [a0] => .ok (.names (a0.splitOn ',') [])
  | a0 :: a1 :: _ => .ok (.names (a0.splitOn ',') a1)

def NewDebugCommand (args : List Str) : GoResult IrcCommand :=
  match args with
  | [] => .err .notEnoughArgsError
  | a0 :: _ => .ok (.debug (goToUpper a0))

def NewVersionCommand (args : List Str) : GoResult IrcCommand :=
  .ok (.version (args.headD []))

def NewInviteCommand (args : List Str) : GoResult IrcCommand :=
  match args with
  | a0 :: a1 :: _ => .ok (.invite a0 a1)
  | _ => .err .notEnoughArgsError

def NewTimeCommand (args : List Str) : GoResult IrcCommand :=
  .ok (.time (args.headD []))

def NewKillCommand (args : List Str) : GoResult IrcCommand :=
  match args with
  | a0 :: a1 :: _ => .ok (.kill a0 a1)
  | _ => .err .notEnoughArgsError

/-- The static registry `parseCommandFuncs`.  The `StringCode` constants are
defined in a file not among the given sources; modelled from the spec, each
code is the command keyword itself. -/
def parseCommandFuncs (isChannel : Str → Bool) (lookupHostname : Str → Str) :
    List (Str × (List Str → GoResult IrcCommand)) :=
  [(("AWAY").data, NewAwayCommand),
   (("CAP").data, NewCapCommand),
   (("DEBUG").data, NewDebugCommand),
   (("INVITE").data, NewInviteCommand),
   (("ISON").data, NewIsOnCommand),
   (("JOIN").data, NewJoinCommand),
   (("KICK").data, NewKickCommand),
   (("KILL").data, NewKillCommand),
   (("LIST").data, NewListCommand),
   (("MODE").data, NewModeCommand isChannel),
   (("MOTD").data, NewMOTDCommand),
   (("NAMES").data, NewNamesCommand),
   (("NICK").data, NewNickCommand),
   (("NOTICE").data, NewNoticeCommand),
   (("OPER").data, NewOperCommand),
   (("PART").data, NewPartCommand),
   (("PASS").data, NewPassCommand),
   (("PING").data, NewPingCommand),
   (("PONG").data, NewPongCommand),
   (("PRIVMSG").data, NewPrivMsgCommand),
   (("PROXY").data, NewProxyCommand lookupHostname),
   (("QUIT").data, NewQuitCommand),
   (("TIME").data, NewTimeCommand),
   (("TOPIC").data, NewTopicCommand),
   (("USER").data, NewUserCommand),
   (("VERSION").data, NewVersionCommand),
   (("WHO").data, NewWhoCommand),
   (("WHOIS").data, NewWhoisCommand)]

/-- A command value stamped with its originating command code
(`cmd.SetCode(code)` after construction). -/
structure TaggedCommand where
  code : Str
  cmd : IrcCommand
deriving DecidableEq

/-- `ParseCommand`: tokenize, look the code up in the registry, fall back to
the UNKNOWN variant when absent, and stamp the result with the code. -/
def ParseCommand (nfkc nfc : Str → Str) (isChannel : Str → Bool)
    (lookupHostname : Str → Str) (line : Str) : GoResult TaggedCommand :=
  let p := ParseLine nfkc nfc line
  match (parseCommandFuncs isChannel lookupHostname).lookup p.1 with
  | none => .ok ⟨p.1, NewUnknownCommand p.2⟩
  | some ctor =>
    match ctor p.2 with
    | .ok c => .ok ⟨p.1, c⟩
    | .err e => .err e
    | .crash => .crash

/-! Supporting lemmas. -/

theorem length_dropWhile_le (p : Char → Bool) (l : Str) :
    (l.dropWhile p).length ≤ l.length :=
  (List.dropWhile_sublist p).length_le

/-- After `splitArg`, the remainder is strictly shorter than a nonempty
line. -/
theorem splitArg_snd_length_lt (c : Char) (rest : Str) :
    (splitArg (c :: rest)).2.length < (c :: rest).length := by
  have hdef : (splitArg (c :: rest)).2
      = ((c :: rest).dropWhile (fun c => c != ' ')).dropWhile (fun c => c == ' ') := rfl
  by_cases hc : c = ' '
  · subst hc
    have h1 : ((' ' :: rest).dropWhile (fun c => c != ' ')) = ' ' :: rest := by
      simp [List.dropWhile_cons]
    have h2 : ((' ' :: rest).dropWhile (fun c => c == ' '))
        = rest.dropWhile (fun c => c == ' ') := by
      simp [List.dropWhile_cons]
    rw [hdef, h1, h2]
    exact Nat.lt_succ_of_le (length_dropWhile_le _ _)
  · have h1 : ((c :: rest).dropWhile (fun c => c != ' '))
        = rest.dropWhile (fun c => c != ' ') := by
      simp [List.dropWhile_cons, hc]
    rw [hdef, h1]
    exact Nat.lt_succ_of_le
      (le_trans (length_dropWhile_le _ _) (length_dropWhile_le _ _))

/-- Any fuel at least `line.length` computes the same parameter list: the
fuel in `parseParams` is sufficient. -/
theorem parseParamsF_fuel (nfkc nfc : Str → Str) :
    ∀ fuel₁ fuel₂ line, line.length ≤ fuel₁ → line.length ≤ fuel₂ →
      parseParamsF nfkc nfc fuel₁ line = parseParamsF nfkc nfc fuel₂ line := by
  intro fuel₁
  induction fuel₁ with
  | zero =>
    intro fuel₂ line h₁ _
    have : line = [] := List.length_eq_zero.mp (Nat.le_zero.mp h₁)
    subst this
    cases fuel₂ <;> rfl
  | succ f ih =>
    intro fuel₂ line h₁ h₂
    cases line with
    | nil => cases fuel₂ <;> rfl
    | cons c rest =>
      cases fuel₂ with
      | zero => exact absurd h₂ (by simp)
      | succ f₂ =>
        unfold parseParamsF
        by_cases hc : c = ':'
        · simp [hc]
        · simp only [if_neg hc]
          have hlt := splitArg_snd_length_lt c rest
          have h₁' : (splitArg (c :: rest)).2.length ≤ f :=
            Nat.le_of_lt_succ (Nat.lt_of_lt_of_le hlt h₁)
          have h₂' : (splitArg (c :: rest)).2.length ≤ f₂ :=
            Nat.le_of_lt_succ (Nat.lt_of_lt_of_le hlt h₂)
          rw [ih f₂ _ h₁' h₂']

/-- A channel-mode token never lengthens the queue of unclaimed arguments. -/
theorem channelModeToken_queue_le (op : ModeOp) :
    ∀ (ms : Str) (queue : List Str),
      (channelModeToken op ms queue).2.length ≤ queue.length := by
  intro ms
  induction ms with
  | nil => intro queue; simp [channelModeToken]
  | cons m t ih =>
    intro queue
    by_cases hm : isConsumingChannelMode m
    · cases queue with
      | nil =>
        simpa [channelModeToken, hm] using ih []
      | cons q qt =>
        have h := ih qt
        simp only [channelModeToken, hm, if_pos]
        exact le_trans h (Nat.le_succ _)
    · simpa [channelModeToken, hm] using ih queue

/-- Any fuel at least `args.length` computes the same channel-mode change
list: the fuel in `NewChannelModeCommand` is sufficient. -/
theorem channelModeLoopF_fuel :
    ∀ fuel₁ fuel₂ args, args.length ≤ fuel₁ → args.length ≤ fuel₂ →
      channelModeLoopF fuel₁ args = channelModeLoopF fuel₂ args := by
  intro fuel₁
  induction fuel₁ with
  | zero =>
    intro fuel₂ args h₁ _
    have : args = [] := List.length_eq_zero.mp (Nat.le_zero.mp h₁)
    subst this
    cases fuel₂ <;> rfl
  | succ f ih =>
    intro fuel₂ args h₁ h₂
    cases args with
    | nil => cases fuel₂ <;> rfl
    | cons a rest =>
      cases fuel₂ with
      | zero => exact absurd h₂ (by simp)
      | succ f₂ =>
        cases a with
        | nil =>
          show channelModeLoopF (f + 1) ([] :: rest) = channelModeLoopF (f₂ + 1) ([] :: rest)
          simp only [channelModeLoopF]
          exact ih f₂ rest (Nat.le_of_succ_le_succ h₁) (Nat.le_of_succ_le_succ h₂)
        | cons c cs =>
          simp only [channelModeLoopF]
          congr 1
          have hq := channelModeToken_queue_le
            (if c = AddOp ∨ c = RemoveOp then (c, cs) else (ListMode, c :: cs)).1
            (if c = AddOp ∨ c = RemoveOp then (c, cs) else (ListMode, c :: cs)).2 rest
          have hb₁ : (channelModeToken
              (if c = AddOp ∨ c = RemoveOp then (c, cs) else (ListMode, c :: cs)).1
              (if c = AddOp ∨ c = RemoveOp then (c, cs) else (ListMode, c :: cs)).2 rest).2.length ≤ f :=
            le_trans hq (Nat.le_of_succ_le_succ h₁)
          have hb₂ : (channelModeToken
              (if c = AddOp ∨ c = RemoveOp then (c, cs) else (ListMode, c :: cs)).1
              (if c = AddOp ∨ c = RemoveOp then (c, cs) else (ListMode, c :: cs)).2 rest).2.length ≤ f₂ :=
            le_trans hq (Nat.le_of_succ_le_succ h₂)
          exact ih f₂ _ hb₁ hb₂

/-- Setting index `i` and taking `i + 1` elements yields the prefix before
`i` followed by the new element. -/
theorem take_set_succ {α : Type} :
    ∀ (l : List α) (i : Nat) (a : α), i < l.length →
      (l.set i a).take (i + 1) = l.take i ++ [a] := by
  intro l
  induction l with
  | nil => intro i a h; simp at h
  | cons hd tl ih =>
    intro i a h
    cases i with
    | zero => simp
    | succ i' =>
      simp only [List.set_cons_succ, List.take_succ_cons]
      rw [ih i' a (by simpa using h)]
      simp

/-- Dropping from a replicated list leaves a shorter replicated list. -/
theorem replicate_drop {α : Type} (x : α) :
    ∀ (m n : Nat), (List.replicate n x).drop m = List.replicate (n - m) x := by
  intro m
  induction m with
  | zero => intro n; simp
  | succ m' ih =>
    intro n
    cases n with
    | zero => simp
    | succ n' =>
      rw [List.replicate_succ, List.drop_succ_cons, ih n']
      simp

/-- The key-writing loop of JOIN, when every index is in range, overwrites
the middle of the slice with the supplied keys. -/
theorem writeKeys_eq :
    ∀ (ks keys : List Str) (i : Nat), i + ks.length ≤ keys.length →
      writeKeys keys ks i = .ok (keys.take i ++ ks ++ keys.drop (i + ks.length)) := by
  intro ks
  induction ks with
  | nil =>
    intro keys i h
    simp [writeKeys]
  | cons k t ih =>
    intro keys i h
    have hi : i < keys.length := by
      simp only [List.length_cons] at h
      omega
    simp only [writeKeys, if_pos hi]
    rw [ih (keys.set i k) (i + 1) (by simp only [List.length_set]; simp at h; omega)]
    rw [take_set_succ keys i k hi]
    rw [List.drop_set, if_pos (by omega)]
    have harith : i + 1 + t.length = i + (t.length + 1) := by omega
    rw [harith]
    simp [List.append_assoc]

/-- Go map assignment with a fresh key appends the pair. -/
theorem goMapInsert_of_not_mem :
    ∀ (m : List (Str × Str)) (k v : Str), k ∉ m.map Prod.fst →
      goMapInsert m k v = m ++ [(k, v)] := by
  intro m
  induction m with
  | nil => intro k v _; rfl
  | cons p t ih =>
    intro k v h
    cases p with
    | mk k' v' =>
      simp only [List.map_cons, List.mem_cons, not_or] at h
      have hne : ¬ k' = k := fun he => h.1 he.symm
      simp only [goMapInsert, if_neg hne]
      rw [ih k v h.2, List.cons_append]

/-- A sequence of Go map assignments with pairwise-distinct, fresh keys
appends all the pairs in order. -/
theorem goMapInsertAll_of_nodup :
    ∀ (pairs m : List (Str × Str)), (pairs.map Prod.fst).Nodup →
      (∀ c ∈ pairs.map Prod.fst, c ∉ m.map Prod.fst) →
      goMapInsertAll m pairs = m ++ pairs := by
  intro pairs
  induction pairs with
  | nil => intro m _ _; simp [goMapInsertAll]
  | cons p t ih =>
    intro m hnd hfresh
    cases p with
    | mk k v =>
      simp only [List.map_cons, List.nodup_cons] at hnd
      have hk : k ∉ m.map Prod.fst := hfresh k (by simp)
      simp only [goMapInsertAll]
      rw [goMapInsert_of_not_mem m k v hk]
      rw [ih (m ++ [(k, v)]) hnd.2 ?_]
      · simp
      · intro c hc
        simp only [List.map_append, List.mem_append, not_or]
        refine ⟨fun hcm => hfresh c (by simp [hc]) hcm, ?_⟩
        simp only [List.map_cons, List.map_nil, List.mem_singleton]
        intro he
        exact hnd.1 (he ▸ hc)

/-- Structure of the parameter list: some NFKC-normalized space-free tokens,
optionally followed by one NFC-normalized trailing parameter. -/
theorem parseParamsF_shape (nfkc nfc : Str → Str) :
    ∀ (fuel : Nat) (l : Str), ∃ (middles : List Str) (trailing : Option Str),
      parseParamsF nfkc nfc fuel l
          = middles.map nfkc ++ (trailing.map nfc).toList ∧
        ∀ t ∈ middles, ' ' ∉ t := by
  intro fuel
  induction fuel with
  | zero =>
    intro l
    refine ⟨[], none, ?_, by simp⟩
    cases l <;> rfl
  | succ f ih =>
    intro l
    cases l with
    | nil => exact ⟨[], none, rfl, by simp⟩
    | cons c rest =>
      by_cases hc : c = ':'
      · refine ⟨[], some rest, ?_, by simp⟩
        simp [parseParamsF, hc]
      · obtain ⟨mids, tr, heq, hsp⟩ := ih (splitArg (c :: rest)).2
        refine ⟨(splitArg (c :: rest)).1 :: mids, tr, ?_, ?_⟩
        · simp only [parseParamsF, if_neg hc, List.map_cons, List.cons_append]
          rw [heq]
        · intro t ht
          rcases List.mem_cons.mp ht with h | h
          · subst h
            intro hsp'
            have hmem := List.mem_takeWhile_imp hsp'
            simp at hmem
          · exact hsp t h

/-- JOIN with a subject list of channels and a key argument no longer than
the channel list: the channel map pairs channels with keys positionally,
channels beyond the key list receiving the empty key. -/
theorem NewJoinCommand_pair (a0 a1 : Str) (h0 : a0 ≠ ['0'])
    (hlen : (a1.splitOn ',').length ≤ (a0.splitOn ',').length)
    (hnd : (a0.splitOn ',').Nodup) :
    NewJoinCommand [a0, a1]
      = .ok (.join ((a0.splitOn ',').zip
          ((a1.splitOn ',') ++
            List.replicate ((a0.splitOn ',').length - (a1.splitOn ',').length) ([] : Str)))
          false) := by
  have hw := writeKeys_eq (a1.splitOn ',')
    (List.replicate (a0.splitOn ',').length ([] : Str)) 0 (by simp [hlen])
  have hkeys : (List.replicate (a0.splitOn ',').length ([] : Str)).take 0
      ++ (a1.splitOn ',')
      ++ (List.replicate (a0.splitOn ',').length ([] : Str)).drop (0 + (a1.splitOn ',').length)
      = (a1.splitOn ',')
        ++ List.replicate ((a0.splitOn ',').length - (a1.splitOn ',').length) ([] : Str) := by
    simp [replicate_drop]
  rw [hkeys] at hw
  have hKlen : ((a1.splitOn ',')
      ++ List.replicate ((a0.splitOn ',').length - (a1.splitOn ',').length) ([] : Str)).length
      = (a0.splitOn ',').length := by
    simp
    omega
  have hfst : (((a0.splitOn ',').zip
      ((a1.splitOn ',')
        ++ List.replicate ((a0.splitOn ',').length - (a1.splitOn ',').length) ([] : Str))).map
          Prod.fst) = a0.splitOn ',' :=
    List.map_fst_zip _ _ (le_of_eq hKlen.symm)
  have hins := goMapInsertAll_of_nodup
    ((a0.splitOn ',').zip
      ((a1.splitOn ',')
        ++ List.replicate ((a0.splitOn ',').length - (a1.splitOn ',').length) ([] : Str)))
    [] (by rw [hfst]; exact hnd) (by simp)
  simp only [NewJoinCommand]
  rw [if_neg h0, hw]
  simp only [hins, List.nil_append]

/-- JOIN on a non-"0" subject whose keys do not outnumber its channels
always returns a command value. -/
theorem NewJoinCommand_ok (a0 : Str) (rest : List Str) (h0 : a0 ≠ ['0'])
    (hk : ∀ a1 ∈ rest.head?, (a1.splitOn ',').length ≤ (a0.splitOn ',').length) :
    ∃ c, NewJoinCommand (a0 :: rest) = .ok c := by
  cases rest with
  | nil =>
    simp only [NewJoinCommand]
    rw [if_neg h0]
    exact ⟨_, rfl⟩
  | cons a1 r =>
    have hl := hk a1 (by simp)
    have hw := writeKeys_eq (a1.splitOn ',')
      (List.replicate (a0.splitOn ',').length ([] : Str)) 0 (by simp [hl])
    simp only [NewJoinCommand]
    rw [if_neg h0, hw]
    exact ⟨_, rfl⟩

/-! Claim theorems. -/

/-- Claim C1 (counterexample): parsing `MODE #chan +o-v alice bob` does not
yield the change sequence [(operator, add, alice), (voice, remove, bob)]
claimed for it. -/
theorem claim_C1_counterexample :
    ¬ (NewChannelModeCommand
        [("#chan").data, ("+o-v").data, ("alice").data, ("bob").data]
      = .ok (.channelMode ("#chan").data
          [⟨ChannelOperator, AddOp, ("alice").data⟩,
           ⟨Voice, RemoveOp, ("bob").data⟩])) := by decide

/-- Claim C1 (amended): for `MODE #chan +o-v alice bob`, only the token's
first character selects the operation (add); the embedded `-` is an ordinary
non-consuming mode letter under that operation, and each argument-consuming
letter (`o`, then `v`) claims one additional argument in left-to-right order
(`alice`, then `bob`). -/
theorem claim_C1 :
    NewChannelModeCommand
        [("#chan").data, ("+o-v").data, ("alice").data, ("bob").data]
      = .ok (.channelMode ("#chan").data
          [⟨ChannelOperator, AddOp, ("alice").data⟩,
           ⟨'-', AddOp, []⟩,
           ⟨Voice, AddOp, ("bob").data⟩]) := by decide

/-- Claim C2 (counterexample): parsing `MODE nick +iw-o` does not yield
[(i, add), (w, add), (o, remove)], and rendering that claimed sequence does
not reproduce `+iw-o` either (the renderer drops the mode letter of a change
whose operation differs from the current run's). -/
theorem claim_C2_counterexample :
    ¬ (NewUserModeCommand [("nick").data, ("+iw-o").data]
        = .ok (.userMode ("nick").data
            [⟨'i', AddOp⟩, ⟨'w', AddOp⟩, ⟨'o', RemoveOp⟩])) ∧
    ModeChangesString [⟨'i', AddOp⟩, ⟨'w', AddOp⟩, ⟨'o', RemoveOp⟩]
      ≠ ("+iw-o").data := by decide

/-- Claim C2 (amended): `MODE nick +iw-o` parses with only the argument's
first character selecting the operation, the embedded `-` becoming an
ordinary mode letter, so the changes are [(i,add),(w,add),(-,add),(o,add)];
rendering that sequence reproduces `+iw-o` because all four changes share
one operation, whose symbol is emitted once at the start. -/
theorem claim_C2 :
    NewUserModeCommand [("nick").data, ("+iw-o").data]
      = .ok (.userMode ("nick").data
          [⟨'i', AddOp⟩, ⟨'w', AddOp⟩, ⟨'-', AddOp⟩, ⟨'o', AddOp⟩]) ∧
    ModeChangesString [⟨'i', AddOp⟩, ⟨'w', AddOp⟩, ⟨'-', AddOp⟩, ⟨'o', AddOp⟩]
      = ("+iw-o").data := by decide

/-- Claim C3 (counterexample): `USER a 12 * realname` builds the modern
variant, but its flags do include invisible, because bit 3 of 12 is set —
contradicting the claim that invisible is absent. -/
theorem claim_C3_counterexample :
    NewUserCommand [("a").data, ("12").data, ("*").data, ("realname").data]
      = .ok (.userRFC2812 ("a").data 12 ("*").data ("realname").data) ∧
    Invisible ∈ RFC2812UserCommandFlags 12 := by decide

/-- Claim C3 (amended): `USER a 12 * realname` parses argument 2 as an
unsigned 8-bit integer and builds the modern variant whose flags include
both wallops (bit 2) and invisible (bit 3), since 12 has both bits set;
`USER a host serv realname` builds the legacy variant because `host` fails
the integer parse. -/
theorem claim_C3 :
    NewUserCommand [("a").data, ("12").data, ("*").data, ("realname").data]
      = .ok (.userRFC2812 ("a").data 12 ("*").data ("realname").data) ∧
    RFC2812UserCommandFlags 12 = [WallOps, Invisible] ∧
    NewUserCommand [("a").data, ("host").data, ("serv").data, ("realname").data]
      = .ok (.userRFC1459 ("a").data ("host").data ("serv").data
          ("realname").data) := by decide

/-- Claim C4: KICK with at least two arguments succeeds exactly when the
comma-split user list has length 1 (that user paired with every channel) or
the channel-list length (positional pairing); every failure is the arity
error.  `KICK #a,#b alice` gives both channels alice, `KICK #a,#b alice,bob`
pairs positionally, and `KICK #a,#b,#c alice,bob` fails with the arity
error. -/
theorem claim_C4 :
    (∀ (a0 a1 : Str) (rest : List Str),
      (∃ c, NewKickCommand (a0 :: a1 :: rest) = .ok c) ↔
        ((a1.splitOn ',').length = 1 ∨
          (a1.splitOn ',').length = (a0.splitOn ',').length)) ∧
    (∀ (a0 a1 : Str) (rest : List Str),
      (∃ c, NewKickCommand (a0 :: a1 :: rest) = .ok c) ∨
        NewKickCommand (a0 :: a1 :: rest) = .err .notEnoughArgsError) ∧
    NewKickCommand [("#a,#b").data, ("alice").data]
      = .ok (.kick [(("#a").data, ("alice").data),
                    (("#b").data, ("alice").data)] []) ∧
    NewKickCommand [("#a,#b").data, ("alice,bob").data]
      = .ok (.kick [(("#a").data, ("alice").data),
                    (("#b").data, ("bob").data)] []) ∧
    NewKickCommand [("#a,#b,#c").data, ("alice,bob").data]
      = .err .notEnoughArgsError := by
  refine ⟨?_, ?_, by decide, by decide, by decide⟩
  · intro a0 a1 rest
    by_cases hcond : (a0.splitOn ',').length ≠ (a1.splitOn ',').length ∧
        (a1.splitOn ',').length ≠ 1
    · simp only [NewKickCommand, if_pos hcond]
      constructor
      · rintro ⟨c, hc⟩
        simp at hc
      · intro hor
        exfalso
        omega
    · simp only [NewKickCommand, if_neg hcond]
      constructor
      · intro _
        push_neg at hcond
        omega
      · intro _
        exact ⟨_, rfl⟩
  · intro a0 a1 rest
    by_cases hcond : (a0.splitOn ',').length ≠ (a1.splitOn ',').length ∧
        (a1.splitOn ',').length ≠ 1
    · right
      simp only [NewKickCommand, if_pos hcond]
    · left
      simp only [NewKickCommand, if_neg hcond]
      exact ⟨_, rfl⟩

/-- Claim C5: `JOIN 0` sets the distinct leave-all flag with an empty channel
map; otherwise the comma-split channels of argument 1 are paired positionally
with the comma-split keys of argument 2, channels beyond the key list
receiving the empty key, so `JOIN #a,#b key1` yields the map
[(#a, key1), (#b, "")]. -/
theorem claim_C5 :
    NewJoinCommand [['0']] = .ok (.join [] true) ∧
    (∀ a0 a1 : Str, a0 ≠ ['0'] →
      (a1.splitOn ',').length ≤ (a0.splitOn ',').length →
      (a0.splitOn ',').Nodup →
      NewJoinCommand [a0, a1]
        = .ok (.join ((a0.splitOn ',').zip
            ((a1.splitOn ',') ++
              List.replicate
                ((a0.splitOn ',').length - (a1.splitOn ',').length)
                ([] : Str)))
            false)) ∧
    NewJoinCommand [("#a,#b").data, ("key1").data]
      = .ok (.join [(("#a").data, ("key1").data), (("#b").data, [])] false) :=
  ⟨by decide,
   fun a0 a1 h0 hlen hnd => NewJoinCommand_pair a0 a1 h0 hlen hnd,
   by decide⟩

/-- Claim C5 witness: the general pairing statement evaluated at
`JOIN #a,#b key1`. -/
theorem claim_C5_witness :
    NewJoinCommand [("#a,#b").data, ("key1").data]
      = .ok (.join ((("#a,#b").data.splitOn ',').zip
          ((("key1").data.splitOn ',') ++
            List.replicate
              ((("#a,#b").data.splitOn ',').length -
                (("key1").data.splitOn ',').length)
              ([] : Str)))
          false) :=
  claim_C5.2.1 (("#a,#b").data) (("key1").data)
    (by decide) (by decide) (by decide)

/-- Structure of `ParseLine`'s parameter list: NFKC-images of space-free
tokens, optionally followed by one NFC-image trailing parameter. -/
theorem ParseLine_params_shape (nfkc nfc : Str → Str) (line : Str) :
    ∃ (middles : List Str) (trailing : Option Str),
      (ParseLine nfkc nfc line).2
          = middles.map nfkc ++ (trailing.map nfc).toList ∧
        ∀ t ∈ middles, ' ' ∉ t := by
  have h := parseParamsF_shape nfkc nfc
    ((splitArg ((match line with
        | ':' :: _ => (splitArg line).2
        | _ => line) : Str)).2).length
    ((splitArg ((match line with
        | ':' :: _ => (splitArg line).2
        | _ => line) : Str)).2)
  exact h

/-- Claim C6: every parameter of a tokenized line, except a trailing one, is
the NFKC normalization of a space-free token; a trailing parameter is the
NFC normalization (only) of the line's remainder; and, provided the NFKC
transform does not introduce spaces, every parameter but the last is
space-free. -/
theorem claim_C6 (nfkc nfc : Str → Str) (line : Str)
    (hn : ∀ t : Str, ' ' ∉ t → ' ' ∉ nfkc t) :
    ∃ (middles : List Str) (trailing : Option Str),
      (ParseLine nfkc nfc line).2
          = middles.map nfkc ++ (trailing.map nfc).toList ∧
        (∀ t ∈ middles, ' ' ∉ t) ∧
        (∀ p ∈ ((ParseLine nfkc nfc line).2).dropLast, ' ' ∉ p) := by
  obtain ⟨mids, tr, heq, hsp⟩ := ParseLine_params_shape nfkc nfc line
  refine ⟨mids, tr, heq, hsp, ?_⟩
  intro p hp
  rw [heq] at hp
  cases tr with
  | none =>
    simp only [Option.map_none', Option.toList_none, List.append_nil] at hp
    have hp' := List.dropLast_subset _ hp
    obtain ⟨t, ht, rfl⟩ := List.mem_map.mp hp'
    exact hn t (hsp t ht)
  | some s =>
    simp only [Option.map_some', Option.toList_some] at hp
    rw [List.dropLast_concat] at hp
    obtain ⟨t, ht, rfl⟩ := List.mem_map.mp hp
    exact hn t (hsp t ht)

/-- Claim C6 witness: the invariant at a concrete line with identity
normalization transforms. -/
theorem claim_C6_witness :
    ∃ (middles : List Str) (trailing : Option Str),
      (ParseLine id id (("PRIVMSG bob :hello there").data)).2
          = middles.map id ++ (trailing.map id).toList ∧
        (∀ t ∈ middles, ' ' ∉ t) ∧
        (∀ p ∈ ((ParseLine id id (("PRIVMSG bob :hello there").data)).2).dropLast,
          ' ' ∉ p) :=
  claim_C6 id id (("PRIVMSG bob :hello there").data) (fun _ h => h)

/-- Claim C7: a line whose upper-cased tokenized command code is absent from
the static registry parses, with no error, to the UNKNOWN variant carrying
the tokenized parameters and stamped with that code. -/
theorem claim_C7 (nfkc nfc : Str → Str) (isChannel : Str → Bool)
    (lookupHostname : Str → Str) (line : Str)
    (habsent : (parseCommandFuncs isChannel lookupHostname).lookup
        (ParseLine nfkc nfc line).1 = none) :
    ParseCommand nfkc nfc isChannel lookupHostname line
      = .ok ⟨(ParseLine nfkc nfc line).1,
             .unknown (ParseLine nfkc nfc line).2⟩ := by
  simp only [ParseCommand, habsent]
  rfl

/-- Claim C7 witness: `ZORP arg1 arg2` is absent from the registry and
parses to UNKNOWN with code ZORP and parameters [arg1, arg2]. -/
theorem claim_C7_witness :
    ((parseCommandFuncs (fun _ => false) id).lookup
        (ParseLine id id (("ZORP arg1 arg2").data)).1 = none) ∧
    ParseCommand id id (fun _ => false) id (("ZORP arg1 arg2").data)
      = .ok ⟨("ZORP").data, .unknown [("arg1").data, ("arg2").data]⟩ :=
  ⟨Option.isNone_iff_eq_none.mp (by decide),
   (claim_C7 id id (fun _ => false) id (("ZORP arg1 arg2").data)
      (Option.isNone_iff_eq_none.mp (by decide))).trans (by decide)⟩

/-- Claim C9: JOIN construction is total under the stated precondition —
for a non-"0" subject whose comma-split key list (when a second argument is
present) is no longer than its comma-split channel list, it returns a
command value; with no arguments it returns the arity error; and the
precondition is necessary, because `JOIN #a k1,k2` writes a key past the
end of the key slice, a runtime panic. -/
theorem claim_C9 :
    (∀ (a0 : Str) (rest : List Str), a0 ≠ ['0'] →
      (∀ a1 ∈ rest.head?,
        (a1.splitOn ',').length ≤ (a0.splitOn ',').length) →
      ∃ c, NewJoinCommand (a0 :: rest) = .ok c) ∧
    NewJoinCommand [] = .err .notEnoughArgsError ∧
    NewJoinCommand [("#a").data, ("k1,k2").data] = .crash :=
  ⟨fun a0 rest h0 hk => NewJoinCommand_ok a0 rest h0 hk, by decide, by decide⟩

/-- Claim C9 witness: the totality statement evaluated at `JOIN #a,#b key1`. -/
theorem claim_C9_witness :
    ∃ c, NewJoinCommand [("#a,#b").data, ("key1").data] = .ok c :=
  claim_C9.1 (("#a,#b").data) [("key1").data] (by decide)
    (by
      intro a1 ha1
      simp only [List.head?_cons, Option.mem_def, Option.some.injEq] at ha1
      subst ha1
      decide)

/-- Claim C10: when the first argument is recognized as a channel name, mode
construction always succeeds with no error (an argument without a leading
`+`/`-` is a list-operation token, not a grammar failure); the grammar
error can only arise from the user-mode parser, i.e. when the subject is not
a channel. -/
theorem claim_C10 (isChannel : Str → Bool) :
    (∀ (a0 : Str) (rest : List Str), isChannel a0 = true →
      NewModeCommand isChannel (a0 :: rest)
        = .ok (.channelMode a0 (channelModeLoopF rest.length rest))) ∧
    (∀ args : List Str,
      NewModeCommand isChannel args = .err .errParseCommand →
      ∃ a0 rest, args = a0 :: rest ∧ isChannel a0 = false) := by
  constructor
  · intro a0 rest h
    simp only [NewModeCommand, if_pos h, NewChannelModeCommand]
  · intro args h
    cases args with
    | nil => simp [NewModeCommand] at h
    | cons a0 rest =>
      by_cases hch : isChannel a0 = true
      · simp only [NewModeCommand, if_pos hch, NewChannelModeCommand] at h
        exact GoResult.noConfusion h
      · exact ⟨a0, rest, rfl, by simpa using hch⟩

/-- Claim C10 witness: the success statement evaluated at
`MODE #chan +o-v alice bob` with a recognizer accepting the subject. -/
theorem claim_C10_witness :
    NewModeCommand (fun _ => true)
        [("#chan").data, ("+o-v").data, ("alice").data, ("bob").data]
      = .ok (.channelMode ("#chan").data
          [⟨ChannelOperator, AddOp, ("alice").data⟩,
           ⟨'-', AddOp, []⟩,
           ⟨Voice, AddOp, ("bob").data⟩]) :=
  ((claim_C10 (fun _ => true)).1 (("#chan").data)
    [("+o-v").data, ("alice").data, ("bob").data] rfl).trans (by decide)
